import Mathlib

/-!
Shallow embedding of the go-ingest-service event store and request
instrumentation, translated from the Go source (package main):

* `Event`, `Store`, `Store.Add`, `Store.List` — the in-memory event store.
  Go's `int64` sequence counter is modelled as `Int` with explicit wrapping
  (`wrap64`), since signed integer arithmetic wraps in Go.  `time.Now().UTC()`
  is modelled as an explicit `now : Nat` argument threaded into `Add` (a
  clock oracle); a run of the program supplies the sequence of clock values.
* `createEventHandler`, `listEventsHandler` — the POST /events and
  GET /events handlers.  JSON decoding of the request body is modelled as an
  `Option Event` (`none` = malformed JSON, Go's `Decode` returning an error).
* `capturedCode`, `instrument`, `Metrics` — the instrumentation wrapper and
  its `statusWriter`.  A handler execution is abstracted to the sequence of
  `WriteHeader` calls it performs, plus whether it returns normally or
  panics (in Go, a panic unwinds past `instrument`, which has no `defer`,
  and is recovered by `middleware.Recoverer` further up the chain).
-/

/-- 64-bit signed wrap-around, modelling Go `int64` arithmetic. -/
def wrap64 (x : Int) : Int := (x + 2 ^ 63) % 2 ^ 64 - 2 ^ 63

/-- Go struct `Event` (main.go): `ID int64`, `Type string`, `Payload string`,
`ReceivedAt time.Time`.  Timestamps are modelled as `Nat`. -/
structure Event where
  id : Int
  type : String
  payload : String
  receivedAt : Nat
deriving Repr, DecidableEq

/-- Go struct `Store`: `seq int64` and `events []Event`.  The mutex only
serializes calls; in this sequential model each call is one atomic step. -/
structure Store where
  seq : Int
  events : List Event
deriving Repr, DecidableEq

/-- The zero value `&Store{}` used in `main`. -/
def Store.empty : Store := { seq := 0, events := [] }

/-- Go `func (s *Store) Add(e Event) Event`:
`s.seq++; e.ID = s.seq; e.ReceivedAt = time.Now().UTC();
s.events = append(s.events, e); return e`.
The current clock reading is the extra argument `now`. -/
def Store.Add (s : Store) (e : Event) (now : Nat) : Store × Event :=
  let seq' := wrap64 (s.seq + 1)
  let e' : Event := { e with id := seq', receivedAt := now }
  ({ seq := seq', events := s.events ++ [e'] }, e')

/-- Iterating `Store.Add` over a list of (request body, clock reading)
pairs: a run of N successful `Add` calls. -/
def Store.addAll (s : Store) (inputs : List (Event × Nat)) : Store :=
  inputs.foldl (fun st p => (st.Add p.1 p.2).1) s

/-- Go `func (s *Store) List(limit int) []Event`:
`if limit <= 0 || limit > len(s.events) { limit = len(s.events) }` and then a
copy-out loop from the last element downwards while `len(out) < limit`,
i.e. the first `limit` elements of the reversed slice. -/
def Store.List (s : Store) (limit : Int) : List Event :=
  let lim : Int :=
    if limit ≤ 0 ∨ (s.events.length : Int) < limit then (s.events.length : Int)
    else limit
  s.events.reverse.take lim.toNat

/-- Go POST /events handler:
`if err := json.NewDecoder(r.Body).Decode(&in); err != nil || in.Type == ""`
then respond 400 and return without touching the store, else
`created := store.Add(in)` and respond 201 with `created`.
`body = none` models a JSON decode error.  Returns the new store state,
the HTTP status code, and the response record (if any). -/
def createEventHandler (s : Store) (body : Option Event) (now : Nat) :
    Store × Nat × Option Event :=
  match body with
  | none => (s, 400, none)
  | some inEv =>
    if inEv.type = "" then (s, 400, none)
    else
      let r := s.Add inEv now
      (r.1, 201, some r.2)

/-- Go GET /events handler: `list := store.List(50)` and encode it. -/
def listEventsHandler (s : Store) : List Event := s.List 50

/-- Iterating the POST /events handler over a list of requests
(body, clock reading), keeping the store state. -/
def postAll (s : Store) (reqs : List (Option Event × Nat)) : Store :=
  reqs.foldl (fun st r => (createEventHandler st r.1 r.2).1) s

/-! ### Instrumentation wrapper -/

/-- Go `statusWriter.WriteHeader` stores `w.code = code` on every call, and the
field is initialised to 200 in `instrument` (`&statusWriter{ResponseWriter: w,
code: 200}`).  Given the sequence of `WriteHeader` calls a handler performs,
the code that `instrument` reads back afterwards is the fold of those
assignments over the initial 200. -/
def capturedCode (calls : List Int) : Int := calls.foldl (fun _ c => c) 200

/-- How a wrapped handler invocation terminates: either it returns normally
after performing the given `WriteHeader` calls, or it panics after performing
them.  In Go the panic unwinds through `instrument` (which uses no `defer`)
and is recovered by `middleware.Recoverer` upstream, which writes a 500
response itself. -/
inductive HandlerOutcome where
  | normal (calls : List Int)
  | panics (calls : List Int)
deriving Repr, DecidableEq

/-- The counter vector restricted to one (route, method): an association list
from status code to count.  `incCounter` models `CounterVec.WithLabelValues(...).Inc()`:
increment the labelled child, creating it at 1 if absent. -/
def incCounter (counts : List (Int × Nat)) (code : Int) : List (Int × Nat) :=
  match counts with
  | [] => [(code, 1)]
  | (c, n) :: rest =>
    if c = code then (c, n + 1) :: rest else (c, n) :: incCounter rest code

/-- Look up one status label's count (0 if the child does not exist yet). -/
def lookupCount (counts : List (Int × Nat)) (code : Int) : Nat :=
  match counts with
  | [] => 0
  | (c, n) :: rest => if c = code then n else lookupCount rest code

/-- Sum of the request counter across all status labels. -/
def counterSum (counts : List (Int × Nat)) : Nat := (counts.map Prod.snd).sum

/-- The two metric aggregates of one (route, method): the
`http_requests_total` children by status label, and the number of
observations recorded into the `http_request_duration_seconds` histogram. -/
structure Metrics where
  counts : List (Int × Nat)
  histCount : Nat
deriving Repr, DecidableEq

/-- Go `instrument`: after `h(sw, r)` returns it runs
`reqsTotal.WithLabelValues(route, method, StatusText(sw.code)).Inc()` and
`reqDuration.WithLabelValues(route, method).Observe(...)`.  If the handler
panics, the unwinding skips both statements (there is no `defer`), so the
metrics are untouched; `middleware.Recoverer` handles the response upstream. -/
def instrument (m : Metrics) (h : HandlerOutcome) : Metrics :=
  match h with
  | .normal calls =>
    { counts := incCounter m.counts (capturedCode calls),
      histCount := m.histCount + 1 }
  | .panics _ => m

/-- A sequence of instrumented requests on one (route, method). -/
def serveAll (m : Metrics) (hs : List HandlerOutcome) : Metrics :=
  hs.foldl instrument m

/-- Whether a handler invocation returned normally. -/
def HandlerOutcome.isNormal : HandlerOutcome → Bool
  | .normal _ => true
  | .panics _ => false

/-! ### Helper definitions and lemmas about runs of `Add` -/

/-- The events a run of `Add` calls appends, starting from sequence counter
`q`: each input stamped with the successor counter value and its clock
reading. -/
def stampFrom (q : Int) : List (Event × Nat) → List Event
  | [] => []
  | (e, t) :: rest =>
    { e with id := wrap64 (q + 1), receivedAt := t } :: stampFrom (wrap64 (q + 1)) rest

/-- The sequence counter after a run of `Add` calls starting from `q`. -/
def seqFrom (q : Int) : List (Event × Nat) → Int
  | [] => q
  | _ :: rest => seqFrom (wrap64 (q + 1)) rest

lemma addAll_events_seq (inputs : List (Event × Nat)) (s : Store) :
    (s.addAll inputs).events = s.events ++ stampFrom s.seq inputs ∧
    (s.addAll inputs).seq = seqFrom s.seq inputs := by
  induction inputs generalizing s with
  | nil => simp [Store.addAll, stampFrom, seqFrom]
  | cons p rest ih =>
    obtain ⟨e, t⟩ := p
    have hstep : Store.addAll s ((e, t) :: rest) = Store.addAll (s.Add e t).1 rest := rfl
    have h := ih (s.Add e t).1
    rw [hstep, h.1, h.2]
    simp [Store.Add, stampFrom, seqFrom]

lemma wrap64_eq (x : Int) (h1 : -(2 ^ 63) ≤ x) (h2 : x < 2 ^ 63) : wrap64 x = x := by
  have hp : ((2 : Int) ^ 63) = 9223372036854775808 := by norm_num
  have hq : ((2 : Int) ^ 64) = 18446744073709551616 := by norm_num
  rw [hp] at h1 h2
  rw [wrap64, hp, hq]
  omega

lemma stampFrom_map_id (inputs : List (Event × Nat)) (q : Int) (h0 : 0 ≤ q)
    (h : q + inputs.length ≤ 2 ^ 63 - 1) :
    (stampFrom q inputs).map Event.id
      = (List.range inputs.length).map (fun i : Nat => q + 1 + (i : Int)) := by
  induction inputs generalizing q with
  | nil => simp [stampFrom]
  | cons p rest ih =>
    obtain ⟨e, t⟩ := p
    have hp : ((2 : Int) ^ 63) = 9223372036854775808 := by norm_num
    rw [hp] at h
    simp only [List.length_cons] at h
    have hw : wrap64 (q + 1) = q + 1 := by
      apply wrap64_eq <;> rw [hp] <;> push_cast at h <;> omega
    have ih' := ih (q + 1) (by omega) (by rw [hp]; push_cast at h ⊢; omega)
    rw [stampFrom, List.map_cons, hw, ih']
    simp only [List.length_cons, List.range_succ_eq_map, List.map_cons, List.map_map]
    refine congrArg₂ _ (by simp) ?_
    refine List.map_congr_left fun a _ => ?_
    simp only [Function.comp_apply]
    push_cast
    ring

lemma stampFrom_map_receivedAt (inputs : List (Event × Nat)) (q : Int) :
    (stampFrom q inputs).map Event.receivedAt = inputs.map Prod.snd := by
  induction inputs generalizing q with
  | nil => simp [stampFrom]
  | cons p rest ih =>
    obtain ⟨e, t⟩ := p
    simp [stampFrom, ih]

/-- `take` on a reversed list is a reversed `drop`. -/
lemma take_reverse_eq {α : Type} (l : List α) (m : ℕ) (h : m ≤ l.length) :
    l.reverse.take m = (l.drop (l.length - m)).reverse := by
  rw [List.reverse_drop]
  congr 1
  omega

lemma addAll_empty_events (inputs : List (Event × Nat)) :
    (Store.addAll Store.empty inputs).events = stampFrom 0 inputs := by
  simpa [Store.empty] using (addAll_events_seq inputs Store.empty).1

/-- Below the `int64` wrap-around, a fresh run of `Add` calls stores the
identifiers 1, 2, ..., N in insertion order. -/
lemma addAll_empty_map_id (inputs : List (Event × Nat))
    (hN : (inputs.length : Int) < 2 ^ 63) :
    (Store.addAll Store.empty inputs).events.map Event.id
      = (List.range inputs.length).map (fun i : Nat => (i : Int) + 1) := by
  rw [addAll_empty_events]
  have hid : (stampFrom 0 inputs).map Event.id
      = (List.range inputs.length).map (fun i : Nat => 0 + 1 + (i : Int)) := by
    refine stampFrom_map_id inputs 0 le_rfl ?_
    have hp : ((2 : Int) ^ 63) = 9223372036854775808 := by norm_num
    rw [hp] at hN ⊢
    omega
  rw [hid]
  exact List.map_congr_left fun a _ => by ring

/-! ### The claims -/

/-- Claim C1: starting from a fresh store, a run of N successful `Add` calls
assigns exactly the identifiers 1..N in insertion order (each exactly once,
strictly increasing, no gaps), and any earlier-inserted event has a smaller
identifier and a `received_at` no later than any later-inserted one.  The
run is bounded below the `int64` wrap-around, and the clock readings the
run observes are nondecreasing (`time.Now` on a sane clock). -/
theorem spec_C1 (inputs : List (Event × Nat))
    (hN : (inputs.length : Int) < 2 ^ 63)
    (hmono : (inputs.map Prod.snd).Pairwise (· ≤ ·)) :
    ((Store.addAll Store.empty inputs).events.map Event.id
      = (List.range inputs.length).map (fun i : Nat => (i : Int) + 1))
    ∧ (Store.addAll Store.empty inputs).events.Pairwise
        (fun A B => A.id < B.id ∧ A.receivedAt ≤ B.receivedAt) := by
  refine ⟨addAll_empty_map_id inputs hN, ?_⟩
  have hlt : ((Store.addAll Store.empty inputs).events.map Event.id).Pairwise (· < ·) := by
    rw [addAll_empty_map_id inputs hN]
    exact List.pairwise_map.mpr
      ((List.pairwise_lt_range inputs.length).imp (by intro a b hab; omega))
  have hle : ((Store.addAll Store.empty inputs).events.map Event.receivedAt).Pairwise
      (· ≤ ·) := by
    rw [addAll_empty_events, stampFrom_map_receivedAt]
    exact hmono
  exact (List.pairwise_map.mp hlt).and (List.pairwise_map.mp hle)

/-- Concrete events used to instantiate the hypotheses of the claims:
clients may supply any `id`/`received_at`; the store overwrites them. -/
def evA : Event := { id := 7, type := "signup", payload := "x", receivedAt := 99 }

/-- A second concrete client event. -/
def evB : Event := { id := 0, type := "click", payload := "y", receivedAt := 0 }

/-- Witness for C1 at the concrete two-call run `[(evA, 3), (evB, 5)]`. -/
theorem spec_C1_witness :
    ((([(evA, 3), (evB, 5)] : List (Event × Nat)).length : Int) < 2 ^ 63)
    ∧ (([(evA, 3), (evB, 5)] : List (Event × Nat)).map Prod.snd).Pairwise (· ≤ ·)
    ∧ (((Store.addAll Store.empty [(evA, 3), (evB, 5)]).events.map Event.id
        = (List.range ([(evA, 3), (evB, 5)] : List (Event × Nat)).length).map
            (fun i : Nat => (i : Int) + 1))
      ∧ (Store.addAll Store.empty [(evA, 3), (evB, 5)]).events.Pairwise
          (fun A B => A.id < B.id ∧ A.receivedAt ≤ B.receivedAt)) :=
  ⟨by norm_num, by decide, spec_C1 [(evA, 3), (evB, 5)] (by norm_num) (by decide)⟩

/-- Claim C2: `Add` assigns the incremented sequence counter as the stored
identifier and the current clock reading as `received_at`, appends the
stamped event at the end, returns the fully populated record, and the
client-supplied `id`/`received_at` fields have no effect on the result. -/
theorem spec_C2 (s : Store) (e : Event) (now : Nat) :
    (s.Add e now).2 = { e with id := wrap64 (s.seq + 1), receivedAt := now }
    ∧ (s.Add e now).1.events = s.events ++ [(s.Add e now).2]
    ∧ (s.Add e now).1.seq = wrap64 (s.seq + 1)
    ∧ ∀ cid ct, s.Add { e with id := cid, receivedAt := ct } now = s.Add e now :=
  ⟨rfl, rfl, rfl, fun _ _ => rfl⟩

/-- Claim C3: `List n` returns `min n storedCount` events for `n > 0` and all
`storedCount` events for `n ≤ 0`, and in both cases the result is the reverse
of a final segment of the insertion sequence (newest first). -/
theorem spec_C3 (s : Store) (n : Int) :
    (s.List n).length
      = (if 0 < n then min n.toNat s.events.length else s.events.length)
    ∧ s.List n = (s.events.drop (s.events.length - (s.List n).length)).reverse := by
  have hdef : s.List n
      = s.events.reverse.take
          ((if n ≤ 0 ∨ ((s.events.length : Int)) < n then ((s.events.length : Int))
            else n).toNat) := rfl
  have hKle : (if n ≤ 0 ∨ ((s.events.length : Int)) < n then ((s.events.length : Int))
      else n).toNat ≤ s.events.length := by
    split <;> omega
  have hlen : (s.List n).length
      = (if n ≤ 0 ∨ ((s.events.length : Int)) < n then ((s.events.length : Int))
          else n).toNat := by
    rw [hdef, List.length_take, List.length_reverse]
    exact min_eq_left hKle
  constructor
  · rw [hlen]
    by_cases hc : n ≤ 0 ∨ ((s.events.length : Int)) < n
    · rw [if_pos hc]
      rcases hc with hc | hc
      · rw [if_neg (by omega)]
        omega
      · rw [if_pos (by omega)]
        omega
    · rw [if_neg hc]
      push_neg at hc
      rw [if_pos hc.1]
      omega
  · rw [hlen, hdef]
    exact take_reverse_eq s.events _ hKle

/-- Witness for C3 has no role: the theorem has no hypotheses.  The next
definition instantiates the concrete 60-request scenario instead. -/
def evT : Event := { id := 0, type := "t", payload := "p", receivedAt := 0 }

set_option maxRecDepth 8000 in
/-- Claim C4: 60 successful POST /events requests followed by GET /events
yield an array of exactly 50 events whose first identifier is 60 and whose
last identifier is 11. -/
theorem spec_C4 :
    (listEventsHandler
        (postAll Store.empty ((List.range 60).map (fun i => (some evT, i))))).length = 50
    ∧ ((listEventsHandler
        (postAll Store.empty ((List.range 60).map (fun i => (some evT, i))))).map
          Event.id).head? = some 60
    ∧ ((listEventsHandler
        (postAll Store.empty ((List.range 60).map (fun i => (some evT, i))))).map
          Event.id).getLast? = some 11 := by
  decide

/-- `List` always returns a prefix of the reversed event sequence. -/
lemma list_take_reverse (s : Store) (limit : Int) :
    ∃ k, s.List limit = s.events.reverse.take k :=
  ⟨_, rfl⟩

/-- Claim C5: on any store state reachable by a fresh run of `Add` calls
(below the `int64` wrap-around), the output of `List` is strictly decreasing
by identifier, for every limit. -/
theorem spec_C5 (inputs : List (Event × Nat))
    (hN : (inputs.length : Int) < 2 ^ 63) (limit : Int) :
    (((Store.addAll Store.empty inputs).List limit).map Event.id).Pairwise (· > ·) := by
  have hasc : ((Store.addAll Store.empty inputs).events.map Event.id).Pairwise (· < ·) := by
    rw [addAll_empty_map_id inputs hN]
    exact List.pairwise_map.mpr
      ((List.pairwise_lt_range inputs.length).imp (by intro a b hab; omega))
  obtain ⟨k, hk⟩ := list_take_reverse (Store.addAll Store.empty inputs) limit
  rw [hk, List.map_take, List.map_reverse]
  exact List.Pairwise.sublist (List.take_sublist _ _) (List.pairwise_reverse.mpr hasc)

/-- Witness for C5 at the concrete run `[(evA, 3), (evB, 5)]` and limit 1. -/
theorem spec_C5_witness :
    ((([(evA, 3), (evB, 5)] : List (Event × Nat)).length : Int) < 2 ^ 63)
    ∧ (((Store.addAll Store.empty [(evA, 3), (evB, 5)]).List 1).map
        Event.id).Pairwise (· > ·) :=
  ⟨by norm_num, spec_C5 [(evA, 3), (evB, 5)] (by norm_num) 1⟩

/-- Claim C6: a POST /events request with a malformed body (decode error) or a
missing/empty `type` answers 400, inserts nothing and leaves the store
untouched, so a subsequent valid POST on a fresh store still receives
identifier 1 (and status 201). -/
theorem spec_C6 (s : Store) (body : Option Event) (now : Nat)
    (hbad : ∀ e, body = some e → e.type = "") :
    createEventHandler s body now = (s, 400, none)
    ∧ ∀ e₂ t₂, e₂.type ≠ "" →
        (createEventHandler (createEventHandler Store.empty body now).1 (some e₂) t₂).2.1
          = 201
        ∧ ((createEventHandler (createEventHandler Store.empty body now).1
            (some e₂) t₂).2.2.map Event.id) = some 1 := by
  have hreject : ∀ st : Store, createEventHandler st body now = (st, 400, none) := by
    intro st
    match body with
    | none => rfl
    | some e =>
      have he : e.type = "" := hbad e rfl
      simp [createEventHandler, he]
  refine ⟨hreject s, fun e₂ t₂ he₂ => ?_⟩
  rw [hreject Store.empty]
  constructor
  · simp [createEventHandler, he₂]
  · simp [createEventHandler, he₂, Store.Add, Store.empty]
    decide

/-- Witness for C6: a body with a missing type (`evNoType`) on the fresh
store, followed by the valid event `evA`. -/
def evNoType : Event := { id := 0, type := "", payload := "x", receivedAt := 0 }

theorem spec_C6_witness :
    (∀ e, (some evNoType : Option Event) = some e → e.type = "")
    ∧ (createEventHandler Store.empty (some evNoType) 4 = (Store.empty, 400, none)
      ∧ ∀ e₂ t₂, e₂.type ≠ "" →
          (createEventHandler (createEventHandler Store.empty (some evNoType) 4).1
            (some e₂) t₂).2.1 = 201
          ∧ ((createEventHandler (createEventHandler Store.empty (some evNoType) 4).1
              (some e₂) t₂).2.2.map Event.id) = some 1) :=
  ⟨fun e he => by cases he; rfl,
   spec_C6 Store.empty (some evNoType) 4 (fun e he => by cases he; rfl)⟩

/-- Claim C7 is false on the code: `statusWriter.WriteHeader` overwrites
`w.code` on every call, so after the two calls `WriteHeader(200);
WriteHeader(404)` the code recorded in the counter label is 404 — the last
call, not the first (which was 200). -/
theorem spec_C7_counterexample :
    capturedCode [200, 404] = 404 ∧ capturedCode [200, 404] ≠ 200 := by
  decide

/-- Claim C7 (amended): the intercepting response-writer captures the status
code of the handler's **last** status-setting call: if a handler calls
`WriteHeader` several times, the status recorded in the request counter
label is the code of the last call. -/
theorem spec_C7_amended (calls : List Int) (c : Int)
    (h : calls.getLast? = some c) : capturedCode calls = c := by
  have hfold : ∀ (l : List Int) (a : Int), l.foldl (fun _ x => x) a = l.getLastD a := by
    intro l
    induction l with
    | nil => intro a; rfl
    | cons b l ih => intro a; rw [List.foldl_cons, ih b, List.getLastD_cons]
  rw [capturedCode, hfold, List.getLastD_eq_getLast?, h]
  rfl

/-- Witness for the amended C7 at the call sequence `[200, 404]`. -/
theorem spec_C7_amended_witness :
    ([200, 404] : List Int).getLast? = some 404 ∧ capturedCode [200, 404] = 404 :=
  ⟨by decide, spec_C7_amended [200, 404] 404 (by decide)⟩

/-- Claim C8 is false on the code: `instrument` has no `defer`, so when the
wrapped handler panics (recovered by `middleware.Recoverer` upstream), the
counter increment and histogram observation are skipped.  After one panicking
request the counter's sum across status labels is 0, not 1. -/
theorem spec_C8_counterexample :
    counterSum (serveAll { counts := [], histCount := 0 }
        [HandlerOutcome.panics []]).counts = 0
    ∧ [HandlerOutcome.panics []].length = 1
    ∧ (0 : Nat) ≠ 1 := by
  decide

lemma counterSum_incCounter (counts : List (Int × Nat)) (code : Int) :
    counterSum (incCounter counts code) = counterSum counts + 1 := by
  induction counts with
  | nil => rfl
  | cons p rest ih =>
    obtain ⟨c, n⟩ := p
    by_cases hc : c = code
    · simp [incCounter, hc, counterSum]
      omega
    · simp only [incCounter, if_neg hc, counterSum, List.map_cons, List.sum_cons] at ih ⊢
      omega

/-- Claim C8 (amended): the wrapper records the counter increment and the
histogram observation after the handler **returns normally**; a panicking
handler bypasses both (the panic unwinds past `instrument` and is recovered
upstream), so after any request sequence the counter's sum across status
labels — and likewise the histogram's observation count — grows by exactly
the number of requests whose handler returned normally. -/
theorem spec_C8_amended (m : Metrics) (hs : List HandlerOutcome) :
    counterSum (serveAll m hs).counts
      = counterSum m.counts + (hs.filter HandlerOutcome.isNormal).length
    ∧ (serveAll m hs).histCount
      = m.histCount + (hs.filter HandlerOutcome.isNormal).length := by
  induction hs generalizing m with
  | nil => simp [serveAll]
  | cons h rest ih =>
    have hstep : serveAll m (h :: rest) = serveAll (instrument m h) rest := rfl
    cases h with
    | normal calls =>
      rw [hstep]
      have hinst : instrument m (.normal calls)
          = { counts := incCounter m.counts (capturedCode calls),
              histCount := m.histCount + 1 } := rfl
      have h2 := ih (instrument m (.normal calls))
      rw [hinst] at h2
      rw [hinst]
      constructor
      · rw [h2.1, counterSum_incCounter]
        simp [HandlerOutcome.isNormal]
        omega
      · rw [h2.2]
        simp [HandlerOutcome.isNormal]
        omega
    | panics calls =>
      rw [hstep]
      have hinst : instrument m (.panics calls) = m := rfl
      rw [hinst]
      simpa [HandlerOutcome.isNormal] using ih m

/-- Claim C9: a handler that never calls `WriteHeader` leaves the intercepted
status at its initial value 200, and `instrument` then increments the 200
label of the counter (and records one histogram observation). -/
theorem spec_C9 (m : Metrics) :
    capturedCode [] = 200
    ∧ lookupCount (instrument m (.normal [])).counts 200 = lookupCount m.counts 200 + 1
    ∧ (instrument m (.normal [])).histCount = m.histCount + 1 := by
  have hlook : ∀ (counts : List (Int × Nat)) (code : Int),
      lookupCount (incCounter counts code) code = lookupCount counts code + 1 := by
    intro counts code
    induction counts with
    | nil => simp [incCounter, lookupCount]
    | cons p rest ih =>
      obtain ⟨c, n⟩ := p
      by_cases hc : c = code
      · simp [incCounter, lookupCount, hc]
      · simp [incCounter, lookupCount, hc, ih]
  exact ⟨rfl, hlook m.counts 200, rfl⟩

/-- Claim C10: the store itself performs no validation: `Add` succeeds on any
event, including one with an empty type — it consumes the next identifier and
appends the stamped event, preserving the (empty) type — while the POST
handler is the component that rejects the empty type, answering 400 without
calling `Add` (store unchanged). -/
theorem spec_C10 (s : Store) (e : Event) (now : Nat) (h : e.type = "") :
    (s.Add e now).1.events = s.events ++ [(s.Add e now).2]
    ∧ (s.Add e now).1.events.length = s.events.length + 1
    ∧ (s.Add e now).2.id = wrap64 (s.seq + 1)
    ∧ (s.Add e now).2.type = ""
    ∧ createEventHandler s (some e) now = (s, 400, none) := by
  refine ⟨rfl, by simp [Store.Add], rfl, h, ?_⟩
  simp [createEventHandler, h]

/-- Witness for C10 at the concrete empty-type event `evNoType`. -/
theorem spec_C10_witness :
    evNoType.type = ""
    ∧ ((Store.empty.Add evNoType 9).1.events
        = Store.empty.events ++ [(Store.empty.Add evNoType 9).2]
      ∧ (Store.empty.Add evNoType 9).1.events.length = Store.empty.events.length + 1
      ∧ (Store.empty.Add evNoType 9).2.id = wrap64 (Store.empty.seq + 1)
      ∧ (Store.empty.Add evNoType 9).2.type = ""
      ∧ createEventHandler Store.empty (some evNoType) 9 = (Store.empty, 400, none)) :=
  ⟨rfl, spec_C10 Store.empty evNoType 9 rfl⟩
